import Mathlib

/-!
Shallow embedding of the SAT-sweeping equivalence engine of
src/src/proof/cec/cecSat.c.  Every Cec2_* function below translates the C
function of the same name.  Primitive helpers that live in headers not shipped
under src/ (gia.h, abc_global.h, the satoko solver) are modelled from the
specification and carry a doc comment saying so.
-/

/-- Modelled from the spec glossary: a literal is (node_index times 2) plus the
complement bit (Abc_Var2Lit of abc_global.h, which is not under src/). -/
def Abc_Var2Lit (v : Nat) (c : Bool) : Nat := 2 * v + (if c then 1 else 0)

/-- Modelled from the spec glossary: variable part of a literal (Abc_Lit2Var). -/
def Abc_Lit2Var (l : Nat) : Nat := l / 2

/-- Modelled from the spec glossary: complement bit of a literal (Abc_LitIsCompl). -/
def Abc_LitIsCompl (l : Nat) : Bool := l % 2 == 1

/-- Modelled from the spec glossary: Abc_LitNot flips the complement bit of a
literal (arithmetic form of the xor with 1). -/
def Abc_LitNot (l : Nat) : Nat := if l % 2 == 1 then l - 1 else l + 1

/-- Modelled from the spec glossary: Abc_LitNotCond flips the complement bit
when c holds. -/
def Abc_LitNotCond (l : Nat) (c : Bool) : Nat := if c then Abc_LitNot l else l

/-- All-ones 64-bit simulation word. -/
def wordMask : Nat := 2 ^ 64 - 1

/-- Bitwise complement of a 64-bit word (the ~ operator of the source); for
w < 2^64 the complement equals wordMask - w. -/
def wnot (w : Nat) : Nat := wordMask - w

/-- AIG object, following the data model of gia.h as described by the spec:
constant zero, combinational input, two-input AND with two fanin literals,
combinational output with one driver literal. -/
inductive GiaObj where
  | const0 : GiaObj
  | ci : GiaObj
  | andg (l0 l1 : Nat) : GiaObj
  | co (l0 : Nat) : GiaObj
deriving DecidableEq

def objAt (objs : List GiaObj) (i : Nat) : GiaObj := objs.getD i GiaObj.const0

def isAndObj : GiaObj → Bool
  | .andg _ _ => true
  | _ => false

def isCiObj : GiaObj → Bool
  | .ci => true
  | _ => false

def isCoObj : GiaObj → Bool
  | .co _ => true
  | _ => false

def litFanin0 (objs : List GiaObj) (i : Nat) : Nat :=
  match objAt objs i with
  | .andg l0 _ => l0
  | .co l0 => l0
  | _ => 0

def litFanin1 (objs : List GiaObj) (i : Nat) : Nat :=
  match objAt objs i with
  | .andg _ l1 => l1
  | _ => 0

def fanin0At (objs : List GiaObj) (i : Nat) : Nat := litFanin0 objs i / 2

def fanin1At (objs : List GiaObj) (i : Nat) : Nat := litFanin1 objs i / 2

def isAndAt (objs : List GiaObj) (i : Nat) : Bool := isAndObj (objAt objs i)

def isCiAt (objs : List GiaObj) (i : Nat) : Bool := isCiObj (objAt objs i)

/-- Indices of the combinational inputs, in object order. -/
def ciIds (objs : List GiaObj) : List Nat :=
  (objs.enum.filter fun p => isCiObj p.2).map Prod.fst

/-- Indices of the combinational outputs, in object order. -/
def coIds (objs : List GiaObj) : List Nat :=
  (objs.enum.filter fun p => isCoObj p.2).map Prod.fst

def nCi (objs : List GiaObj) : Nat := (ciIds objs).length

/-- The fields of the user AIG manager (Gia_Man_t) that the embedded functions
touch: word count and simulation storage, the pattern column counter, the
per-node Value literal, phase, proved and failed flags. -/
structure GiaMan where
  nSimWords : Nat
  iPatsPi : Nat
  sims : Nat → List Nat
  value : Nat → Nat
  phase : Nat → Bool
  proved : Nat → Bool
  failed : Nat → Bool

/-- Modelled from the spec: Abc_InfoHasBit (not under src/) reads one bit of
the packed simulation words; bit pos of the vector is bit pos % 64 of word
pos / 64. -/
def simGetBit (sim : List Nat) (pos : Nat) : Bool :=
  sim.getD (pos / 64) 0 / 2 ^ (pos % 64) % 2 == 1

/-- Modelled from the spec: Abc_InfoXorBit (not under src/) flips one bit;
arithmetic form of the xor of word pos / 64 with 2 ^ (pos % 64). -/
def simXorBit (sim : List Nat) (pos : Nat) : List Nat :=
  sim.set (pos / 64)
    (if simGetBit sim pos then sim.getD (pos / 64) 0 - 2 ^ (pos % 64)
     else sim.getD (pos / 64) 0 + 2 ^ (pos % 64))

/-- Cec2_ObjSimSetInputBit: drive bit iPatsPi of the simulation vector of node
iObj to Bit, flipping it when it disagrees. -/
def Cec2_ObjSimSetInputBit (p : GiaMan) (iObj : Nat) (bit : Bool) : GiaMan :=
  if simGetBit (p.sims iObj) p.iPatsPi != bit then
    { p with sims := fun j => if j = iObj then simXorBit (p.sims iObj) p.iPatsPi else p.sims j }
  else p

/-- Cec2_ObjSimEqual: the two vectors are compared word for word, for equality
when the two column-0 bits agree and for complementarity when they differ. -/
def Cec2_ObjSimEqual (p : GiaMan) (iObj0 iObj1 : Nat) : Bool :=
  let pSim0 := p.sims iObj0
  let pSim1 := p.sims iObj1
  if pSim0.getD 0 0 % 2 == pSim1.getD 0 0 % 2 then
    (List.range p.nSimWords).all fun w => pSim0.getD w 0 == pSim1.getD w 0
  else
    (List.range p.nSimWords).all fun w => pSim0.getD w 0 == wnot (pSim1.getD w 0)

/-- Cec2_ObjSimCi: give the CI fresh random words and shift word 0 left by one
so that its column-0 bit is zero; Gia_ManRandomW (not under src/) is modelled
by the rng stream. -/
def Cec2_ObjSimCi (rng : Nat → List Nat) (p : GiaMan) (iObj : Nat) : GiaMan :=
  { p with sims := fun j =>
      if j = iObj then
        match rng iObj with
        | [] => []
        | w :: ws => (w * 2 % 2 ^ 64) :: ws
      else p.sims j }

/-- Cec2_ManSimulateCis: randomize every CI and reset iPatsPi to 1. -/
def Cec2_ManSimulateCis (objs : List GiaObj) (rng : Nat → List Nat) (p : GiaMan) : GiaMan :=
  { (ciIds objs).foldl (fun q id => Cec2_ObjSimCi rng q id) p with iPatsPi := 1 }

structure AbcCex where
  iPo : Nat
  ciBits : List Bool
deriving DecidableEq

/-- Cec2_ManDeriveCex: iPat = -1 yields the all-zero CI assignment
(Abc_CexAlloc, not under src/, zero-initializes the pattern per the spec);
otherwise the bits of simulation column iPat are read for every CI. -/
def Cec2_ManDeriveCex (objs : List GiaObj) (sims : Nat → List Nat) (iOut : Nat) (iPat : Int) :
    AbcCex :=
  if iPat = -1 then ⟨iOut, List.replicate (nCi objs) false⟩
  else ⟨iOut, (ciIds objs).map fun id => simGetBit (sims id) iPat.toNat⟩

/-- Modelled from the spec: the phase of a node is its value under the all-zero
CI assignment (Gia_ManSetPhase of gia.h, not under src/), computed from the
phases of the earlier nodes. -/
def objPhase (phs : List Bool) : GiaObj → Bool
  | .const0 => false
  | .ci => false
  | .andg l0 l1 =>
      ((phs.getD (l0 / 2) false).xor (l0 % 2 == 1)) &&
      ((phs.getD (l1 / 2) false).xor (l1 % 2 == 1))
  | .co l0 => (phs.getD (l0 / 2) false).xor (l0 % 2 == 1)

def phasesAux : List GiaObj → List Bool → List Bool
  | [], acc => acc
  | o :: rest, acc => phasesAux rest (acc ++ [objPhase acc o])

def Gia_ManSetPhase (objs : List GiaObj) : List Bool := phasesAux objs []

/-- The CO scan of the all-zero shortcut: index of the first CO whose phase is
set, counting COs from 0. -/
def miterCoScan (phs : List Bool) : Nat → List Nat → Option Nat
  | _, [] => none
  | i, id :: rest => if phs.getD id false then some i else miterCoScan phs (i + 1) rest

/-- The all-zero-pattern shortcut at the top of Cec2_ManPerformSweeping
(source lines 823-833): in miter mode a CO whose phase is 1 already fails under
the all-zero pattern; the first such CO yields the counter-example and the
sweep returns 0 before any simulation storage exists (hence the empty sims
passed to Cec2_ManDeriveCex with iPat = -1, which does not read them). -/
def Cec2_ManPerformSweepingCheck (fIsMiter : Bool) (objs : List GiaObj) : Option AbcCex :=
  let phs := Gia_ManSetPhase objs
  if fIsMiter then
    match miterCoScan phs 0 (coIds objs) with
    | some i => some (Cec2_ManDeriveCex objs (fun _ => []) i (-1))
    | none => none
  else none

structure Cec2_Par where
  nSimWords : Nat
  nSimRounds : Nat
  nConfLimit : Nat
  fIsMiter : Bool
  fVeryVerbose : Bool
  fVerbose : Bool
deriving DecidableEq

/-- Cec2_SetDefaultParams. -/
def Cec2_SetDefaultParams : Cec2_Par := ⟨8, 4, 1000, false, false, true⟩

/-- Cec2_ManSimAlloc: allocate Gia_ManObjNum times nWords zero words of
simulation storage and record nSimWords; no parameter is validated. -/
def Cec2_ManSimAlloc (p : GiaMan) (nWords : Nat) : GiaMan :=
  { p with nSimWords := nWords, sims := fun _ => List.replicate nWords 0 }

structure Cec2Man where
  pars : Cec2_Par
  copies : Nat → Int

/-- Cec2_ManCreate: store the parameters and start the rebuilt AIG with its
copy map (vCopies, the satVar store) filled with -1; fields not touched by any
claim are omitted.  No parameter is validated. -/
def Cec2_ManCreate (pars : Cec2_Par) : Cec2Man := ⟨pars, fun _ => -1⟩

inductive ConfigError where
  | configInvalid
deriving DecidableEq

/-- Modelled from the spec: engine construction fails with ConfigInvalid on an
impossible parameter such as nSimWords = 0 (spec section 7); stated as a
checked variant to compare against the source construction, which performs no
such check. -/
def simAllocChecked (p : GiaMan) (nWords : Nat) : Except ConfigError GiaMan :=
  if nWords = 0 then .error .configInvalid else .ok (Cec2_ManSimAlloc p nWords)

def s_Primes : List Nat :=
  [1291, 1699, 1999, 2357, 2953, 3313, 3907, 4177, 4831, 5147, 5647, 6343, 6899, 7103, 7873, 8147]

/-- The 64-bit simulation words reinterpreted as 32-bit unsigned chunks, low
half first (the cast from word pointer to unsigned pointer of the source, on a
little-endian machine). -/
def simChunks : List Nat → List Nat
  | [] => []
  | w :: ws => w % 2 ^ 32 :: w / 2 ^ 32 :: simChunks ws

/-- Complement of a 32-bit chunk u < 2^32, in arithmetic form. -/
def cnot32 (u : Nat) : Nat := 2 ^ 32 - 1 - u

/-- Cec2_ManSimHashKey: xor-accumulate chunk times prime (prime index is the
chunk index masked with 0xf, that is mod 16) over the 2 * nSims chunks,
complementing every chunk when the column-0 bit of the vector is set, then
reduce modulo the table size.  Products are unsigned, that is modulo 2^32. -/
def Cec2_ManSimHashKey (pSim : List Nat) (nSims nTableSize : Nat) : Nat :=
  let pSimU := simChunks (pSim.take nSims)
  let uHash :=
    if pSimU.getD 0 0 % 2 == 1 then
      pSimU.enum.foldl (fun h iu => h ^^^ (cnot32 iu.2 * s_Primes.getD (iu.1 % 16) 0 % 2 ^ 32)) 0
    else
      pSimU.enum.foldl (fun h iu => h ^^^ (iu.2 * s_Primes.getD (iu.1 % 16) 0 % 2 ^ 32)) 0
  uHash % nTableSize

/-- First loop of Cec2_ManSimClassRefineOne: scan the member chain of iRepr,
keeping the leading members equal to the representative, and return the kept
members together with the chain from the first disequal member on. -/
def refineScan (p : GiaMan) (iRepr : Nat) : List Nat → List Nat × List Nat
  | [] => ([], [])
  | m :: rest =>
      if Cec2_ObjSimEqual p iRepr m then
        let pr := refineScan p iRepr rest
        (m :: pr.1, pr.2)
      else ([], m :: rest)

/-- Second loop of Cec2_ManSimClassRefineOne: relink the remaining members, the
ones equal to iRepr onto the chain of iRepr, the others onto the chain of the
new head. -/
def refineRelink (p : GiaMan) (iRepr : Nat) : List Nat → List Nat × List Nat
  | [] => ([], [])
  | m :: rest =>
      let pr := refineRelink p iRepr rest
      if Cec2_ObjSimEqual p iRepr m then (m :: pr.1, pr.2) else (pr.1, m :: pr.2)

/-- Cec2_ManSimClassRefineOne on the member chain of class iRepr (the intrusive
next links of the source are represented as the list of member indices in
chain order): the result is the chain kept by iRepr and the chain of the new
class headed by the first disequal member, empty when there is no refinement. -/
def Cec2_ManSimClassRefineOne (p : GiaMan) (iRepr : Nat) (members : List Nat) :
    List Nat × List Nat :=
  match refineScan p iRepr members with
  | (_, []) => (members, [])
  | (pre, iRepr2 :: rest) =>
      let pr := refineRelink p iRepr rest
      (pre ++ pr.1, iRepr2 :: pr.2)

/-- Cec2_AddClausesMux: the six ITE clauses for a MUX node, given the SAT
variables of the node, of the control and of the two (possibly complemented)
data fanins; the last two clauses are skipped when the data fanins share one
variable.  fPolarFlip is the constant 0 in the source, so the phase-flipping
branches are dead and omitted. -/
def Cec2_AddClausesMux (varF varI varT varE : Nat) (fCompT fCompE : Bool) : List (List Nat) :=
  let cl1 := [Abc_Var2Lit varI true, Abc_Var2Lit varT (!fCompT), Abc_Var2Lit varF false]
  let cl2 := [Abc_Var2Lit varI true, Abc_Var2Lit varT fCompT, Abc_Var2Lit varF true]
  let cl3 := [Abc_Var2Lit varI false, Abc_Var2Lit varE (!fCompE), Abc_Var2Lit varF false]
  let cl4 := [Abc_Var2Lit varI false, Abc_Var2Lit varE fCompE, Abc_Var2Lit varF true]
  if varT == varE then [cl1, cl2, cl3, cl4]
  else
    [cl1, cl2, cl3, cl4,
     [Abc_Var2Lit varT fCompT, Abc_Var2Lit varE fCompE, Abc_Var2Lit varF true],
     [Abc_Var2Lit varT (!fCompT), Abc_Var2Lit varE (!fCompE), Abc_Var2Lit varF false]]

/-- Cec2_AddClausesSuper for an AND super-gate: one two-literal clause per leaf
and one closing clause over all leaves plus the node; a leaf is the SAT
variable of its regular node together with its complement bit. -/
def Cec2_AddClausesSuper (varNode : Nat) (leaves : List (Nat × Bool)) : List (List Nat) :=
  (leaves.map fun vc => [Abc_Var2Lit vc.1 vc.2, Abc_Var2Lit varNode true])
  ++ [(leaves.map fun vc => Abc_Var2Lit vc.1 (!vc.2)) ++ [Abc_Var2Lit varNode false]]

/-- The internally rebuilt AIG (the pNew manager) together with the per-node
fMark0 MUX flag and the Value field read by the super-gate cut. -/
structure RGia where
  objs : List GiaObj
  mark0 : Nat → Bool
  value : Nat → Nat

/-- The satVar map of the rebuilt AIG (its vCopies array, -1 when unassigned)
together with the solver variable counter. -/
structure CnfState where
  satVar : Nat → Int
  nVars : Nat

/-- Cec2_ObjSetSatId with a fresh variable from satoko_add_variable. -/
def cnfAssign (st : CnfState) (i : Nat) : CnfState :=
  ⟨fun j => if j = i then (st.nVars : Int) else st.satVar j, st.nVars + 1⟩

/-- Vec_PtrPushUnique. -/
def vecPushUnique (v : List Nat) (x : Nat) : List Nat := if x ∈ v then v else v ++ [x]

/-- Cec2_ObjAddToFrontier: a node without a SAT variable receives a fresh one
and, when it is an AND, is appended to the frontier. -/
def Cec2_ObjAddToFrontier (a : RGia) (i : Nat) (stq : CnfState × List Nat) :
    CnfState × List Nat :=
  if 0 ≤ stq.1.satVar i then stq
  else (cnfAssign stq.1 i, if isAndAt a.objs i then stq.2 ++ [i] else stq.2)

/-- Cec2_CollectSuper_rec over fanin literals (fUseMuxes is the constant 1 in
Cec2_ObjGetCnfVar): a complemented edge, a CI, a node referenced elsewhere
(Value above 1, unless this is the root) or a MUX node is a leaf; otherwise
both branches are collected.  Fuel only serves termination; the recursion
depth is bounded by the node index in a well-formed AIG. -/
def Cec2_CollectSuper_rec (a : RGia) : Nat → Nat → Bool → List Nat → List Nat
  | 0, _, _, vSuper => vSuper
  | fuel + 1, lit, fFirst, vSuper =>
      if lit % 2 == 1 || isCiAt a.objs (lit / 2)
         || (!fFirst && decide (1 < a.value (lit / 2))) || a.mark0 (lit / 2) then
        vecPushUnique vSuper lit
      else
        Cec2_CollectSuper_rec a fuel (litFanin1 a.objs (lit / 2)) false
          (Cec2_CollectSuper_rec a fuel (litFanin0 a.objs (lit / 2)) false vSuper)

/-- Cec2_CollectSuper. -/
def Cec2_CollectSuper (a : RGia) (iObj : Nat) : List Nat :=
  Cec2_CollectSuper_rec a (a.objs.length + 1) (2 * iObj) true []

/-- The four grandchildren of a MUX node, pushed uniquely in source order. -/
def muxFanins (a : RGia) (n : Nat) : List Nat :=
  vecPushUnique
    (vecPushUnique
      (vecPushUnique
        (vecPushUnique [] (fanin0At a.objs (fanin0At a.objs n)))
        (fanin0At a.objs (fanin1At a.objs n)))
      (fanin1At a.objs (fanin0At a.objs n)))
    (fanin1At a.objs (fanin1At a.objs n))

/-- The frontier loop of Cec2_ObjGetCnfVar: pop a node, variablize its MUX
grandchildren or super-gate leaves, push the newly variablized AND nodes, and
continue.  The clauses emitted to the black-box solver (Cec2_AddClausesMux and
Cec2_AddClausesSuper) do not touch the satVar map and are modelled separately. -/
def cnfFrontierLoop (a : RGia) : Nat → List Nat → CnfState → CnfState
  | 0, _, st => st
  | _ + 1, [], st => st
  | fuel + 1, n :: rest, st =>
      let fanins :=
        if a.mark0 n then muxFanins a n
        else (Cec2_CollectSuper a n).map fun l => l / 2
      let stq := fanins.foldl (fun sq f => Cec2_ObjAddToFrontier a f sq) (st, rest)
      cnfFrontierLoop a fuel stq.2 stq.1

/-- Cec2_ObjGetCnfVar. -/
def Cec2_ObjGetCnfVar (a : RGia) (st : CnfState) (iObj : Nat) : CnfState × Int :=
  if 0 ≤ st.satVar iObj then (st, st.satVar iObj)
  else if isCiAt a.objs iObj then (cnfAssign st iObj, (st.nVars : Int))
  else
    let stq := Cec2_ObjAddToFrontier a iObj (st, [])
    let st2 := cnfFrontierLoop a (a.objs.length + 1) stq.2 stq.1
    (st2, st2.satVar iObj)

structure CollectState where
  visited : List Nat
  nodesNew : List Nat
  pairs : List (Nat × Int)

/-- Cec2_ManCollect_rec: walk the cone, record every node that carries a SAT
variable into vNodesNew, and pair every CI with its SAT variable; the CI id in
the user AIG is produced by ci2aig, modelling Gia_ManCiIdToId of gia.h, which
is not under src/.  The traversal marks (Gia_ObjSetTravIdCurrentId) are the
visited list.  Fuel only serves termination. -/
def Cec2_ManCollect_rec (a : RGia) (sv : Nat → Int) (ci2aig : Nat → Nat) :
    Nat → Nat → CollectState → CollectState
  | 0, _, s => s
  | fuel + 1, iObj, s =>
      if iObj ∈ s.visited then s
      else
        let s1 : CollectState :=
          ⟨s.visited ++ [iObj],
           if 0 ≤ sv iObj then s.nodesNew ++ [iObj] else s.nodesNew,
           s.pairs⟩
        if iObj = 0 then s1
        else if isAndAt a.objs iObj then
          Cec2_ManCollect_rec a sv ci2aig fuel (fanin1At a.objs iObj)
            (Cec2_ManCollect_rec a sv ci2aig fuel (fanin0At a.objs iObj) s1)
        else
          { s1 with pairs := s1.pairs ++ [(ci2aig iObj, sv iObj)] }

/-- Cec2_ObjCleanSatId applied to every node of vNodesNew. -/
def cleanSatVars (nodes : List Nat) (sv : Nat → Int) : Nat → Int :=
  nodes.foldl (fun f i => fun j => if j = i then -1 else f j) sv

inductive SStatus where
  | sat
  | unsat
  | undec
deriving DecidableEq

structure SolveTwoRes where
  status : SStatus
  queries : List (Nat × Nat)
  satVar : Nat → Int
  nodesNew : List Nat
  pairs : List (Nat × Int)
  vars : Nat × Nat

/-- Cec2_ManSolveTwo: order the two rebuilt nodes, build their CNF (the satVar
map is clean on entry, matching the solver_varnum assertion; the constant node
is variablized up front when it is one side), collect the cone, query the
black-box solver under the direct assumption pair and, only when that query is
UNSAT and the smaller node is not the constant, under the reverse pair, then
clean the satVar entries of every collected node.  The solver is the oracle
solve, mapping the list of earlier queries and the current assumption pair to
a status; the queries field records the assumption pairs in order. -/
def Cec2_ManSolveTwo (a : RGia) (solve : List (Nat × Nat) → Nat × Nat → SStatus)
    (ci2aig : Nat → Nat) (iObj0 iObj1 : Nat) (fPhase : Bool) : SolveTwoRes :=
  let io := if iObj1 < iObj0 then (iObj1, iObj0) else (iObj0, iObj1)
  let st0 : CnfState := ⟨fun _ => -1, 0⟩
  let stc := if io.1 = 0 then cnfAssign st0 0 else st0
  let r0 := Cec2_ObjGetCnfVar a stc io.1
  let r1 := Cec2_ObjGetCnfVar a r0.1 io.2
  let cs1 := Cec2_ManCollect_rec a r1.1.satVar ci2aig a.objs.length io.1 ⟨[], [], []⟩
  let cs2 := Cec2_ManCollect_rec a r1.1.satVar ci2aig a.objs.length io.2 cs1
  let q1 := (Abc_Var2Lit r0.2.toNat true, Abc_Var2Lit r1.2.toNat fPhase)
  let s1 := solve [] q1
  let out :=
    if s1 = SStatus.unsat ∧ 0 < io.1 then
      (solve [q1] (Abc_Var2Lit r0.2.toNat false, Abc_Var2Lit r1.2.toNat (!fPhase)),
       [q1, (Abc_Var2Lit r0.2.toNat false, Abc_Var2Lit r1.2.toNat (!fPhase))])
    else (s1, [q1])
  ⟨out.1, out.2, cleanSatVars cs2.nodesNew r1.1.satVar, cs2.nodesNew, cs2.pairs,
   (r0.2.toNat, r1.2.toNat)⟩

/-- The wrap-around increment of the pattern column counter performed in the
SAT branch of Cec2_ManSweepNode. -/
def iPatsPiNext (nSimWords iPatsPi : Nat) : Nat :=
  if iPatsPi = 64 * nSimWords - 1 then 1 else iPatsPi + 1

/-- Cec2_ManSweepNode: solve the pair of rebuilt values of the representative
and the node under their phase difference; on SAT advance the pattern column,
write the model bits of the collected CIs and report 0; on UNSAT merge the
node onto the representative literal and set proved; on UNDEC set failed and
hit assert 0.  The Bool of the result is true when an assert fires (the range
assert of the SAT branch or the assert 0 of the UNDEC branch).  var_polarity
of the solver model is the oracle pol. -/
def Cec2_ManSweepNode (a : RGia) (solve : List (Nat × Nat) → Nat × Nat → SStatus)
    (pol : Nat → Bool) (ci2aig : Nat → Nat) (p : GiaMan) (iObj : Nat) (iRepr : Nat) :
    GiaMan × Nat × Bool :=
  let fCompl := (Abc_LitIsCompl (p.value iObj)).xor
    ((Abc_LitIsCompl (p.value iRepr)).xor ((p.phase iObj).xor (p.phase iRepr)))
  let res := Cec2_ManSolveTwo a solve ci2aig (Abc_Lit2Var (p.value iRepr))
    (Abc_Lit2Var (p.value iObj)) fCompl
  match res.status with
  | .sat =>
      let p1 := { p with iPatsPi := iPatsPiNext p.nSimWords p.iPatsPi }
      let ok := decide (0 < p1.iPatsPi ∧ p1.iPatsPi < 64 * p1.nSimWords)
      let p2 := res.pairs.foldl (fun q pr => Cec2_ObjSimSetInputBit q pr.1 (pol pr.2.toNat)) p1
      (p2, 0, !ok)
  | .unsat =>
      ({ p with
          value := fun j => if j = iObj then Abc_LitNotCond (p.value iRepr) fCompl else p.value j,
          proved := fun j => if j = iObj then true else p.proved j }, 1, false)
  | .undec =>
      ({ p with failed := fun j => if j = iObj then true else p.failed j }, 1, true)

/-- Well-formedness of the rebuilt AIG: index 0 is the constant, the constant
appears nowhere else, there are no COs, and AND fanins are neither constant
nor forward edges.  Gia_ManHashAnd guarantees all of this by construction
(constant propagation and structural hashing, per the spec). -/
def wfR (a : RGia) : Bool :=
  decide (objAt a.objs 0 = GiaObj.const0) &&
  (List.range a.objs.length).all fun i =>
    match objAt a.objs i with
    | .andg l0 l1 => decide (0 < l0 / 2 ∧ l0 / 2 < i ∧ 0 < l1 / 2 ∧ l1 / 2 < i)
    | .co _ => false
    | .const0 => decide (i = 0)
    | .ci => true

/-- MUX flags are only set on AND nodes whose two fanins are AND nodes
(Gia_ObjIsMuxType requires the node to be the AND of two ANDs). -/
def wfMux (a : RGia) : Bool :=
  (List.range a.objs.length).all fun i =>
    !a.mark0 i || (isAndAt a.objs i && isAndAt a.objs (fanin0At a.objs i)
                   && isAndAt a.objs (fanin1At a.objs i))

/-- Structural reachability through AND fanins in the rebuilt AIG. -/
inductive Reach (a : RGia) : Nat → Nat → Prop where
  | refl (i : Nat) : Reach a i i
  | f0 {i j : Nat} : Reach a i j → isAndAt a.objs j = true → Reach a i (fanin0At a.objs j)
  | f1 {i j : Nat} : Reach a i j → isAndAt a.objs j = true → Reach a i (fanin1At a.objs j)

/-- Relative change invariant of one CNF construction phase: any satVar entry
that differs from its entry value belongs to a node in the reach set and is a
nonnegative variable. -/
def svInv (b s : Nat → Int) (R : Nat → Prop) : Prop :=
  ∀ j, s j ≠ b j → R j ∧ 0 ≤ s j

/-- A small well-formed rebuilt AIG used as concrete input: two CIs and the two
ANDs of the first with the second, plain and complemented. -/
def exampleR : RGia :=
  ⟨[GiaObj.const0, GiaObj.ci, GiaObj.ci, GiaObj.andg 2 4, GiaObj.andg 2 5],
   fun _ => false, fun _ => 0⟩

/-- A small concrete user manager. -/
def exampleGiaMan : GiaMan :=
  ⟨1, 1, fun _ => [0], fun i => 2 * i, fun _ => false, fun _ => false, fun _ => false⟩

/-- A one-output miter whose CO inverts a CI, so its phase is 1. -/
def exampleMiter : List GiaObj := [GiaObj.const0, GiaObj.ci, GiaObj.co 3]

/-- A manager with two one-word simulation vectors that are complementary. -/
def exampleSim : GiaMan :=
  ⟨1, 1, fun i => if i = 0 then [5] else [wnot 5],
   fun _ => 0, fun _ => false, fun _ => false, fun _ => false⟩

/-! Theorems.  Helper lemmas come first, claim theorems carry the claim id in
their doc comment. -/

/-- C5 counterexample: a pure AND super-gate with k = 2 leaves yields 3
clauses, not 2 * 2 + 1 = 5. -/
theorem c5_supergate_count_counterexample :
    (Cec2_AddClausesSuper 3 [(1, false), (2, false)]).length ≠ 2 * 2 + 1 := by
  decide

/-- C5 (amended): the MUX encoding emits six clauses, reduced to four when the
then and else fanins share one variable, and a pure AND super-gate of k leaves
emits k + 1 clauses. -/
theorem c5_clause_counts (varF varI varT varE : Nat) (fCompT fCompE : Bool)
    (varNode : Nat) (leaves : List (Nat × Bool)) :
    (Cec2_AddClausesMux varF varI varT varE fCompT fCompE).length
        = (if varT = varE then 4 else 6) ∧
    (Cec2_AddClausesSuper varNode leaves).length = leaves.length + 1 := by
  constructor
  · by_cases h : varT = varE <;> simp [Cec2_AddClausesMux, h]
  · simp [Cec2_AddClausesSuper]

/-- C9 counterexample: constructing with nSimWords = 0 does not fail anywhere;
the source allocates an empty simulation store and stores the parameters,
while the spec-modelled checked construction rejects the same input. -/
theorem c9_no_validation_counterexample :
    (Cec2_ManSimAlloc exampleGiaMan 0).nSimWords = 0 ∧
    (Cec2_ManSimAlloc exampleGiaMan 0).sims 0 = [] ∧
    simAllocChecked exampleGiaMan 0 = Except.error ConfigError.configInvalid ∧
    (Cec2_ManCreate { Cec2_SetDefaultParams with nSimWords := 0 }).pars.nSimWords = 0 :=
  ⟨rfl, rfl, rfl, rfl⟩

/-- C9 (amended): engine construction performs no parameter validation:
nSimWords = 0 is accepted, producing a manager whose simulation store holds
zero words per object, and Cec2_ManCreate stores any parameter block
unchanged. -/
theorem c9_construction_total (p : GiaMan) (pars : Cec2_Par) (i : Nat) :
    (Cec2_ManSimAlloc p 0).nSimWords = 0 ∧ (Cec2_ManSimAlloc p 0).sims i = [] ∧
    (Cec2_ManCreate pars).pars = pars :=
  ⟨rfl, rfl, rfl⟩

/-- C2: with the solver returning UNDEC, Cec2_ManSweepNode sets the failed flag
of the node but then executes assert 0 (the Bool of the result), so in an
assert-enabled build the engine aborts instead of continuing with the next
candidate as the claim states. -/
theorem c2_undec_aborts :
    (Cec2_ManSweepNode exampleR (fun _ _ => SStatus.undec) (fun _ => false)
        (fun i => i) exampleGiaMan 4 3).1.failed 4 = true ∧
    (Cec2_ManSweepNode exampleR (fun _ _ => SStatus.undec) (fun _ => false)
        (fun i => i) exampleGiaMan 4 3).2.2 = true := by
  exact ⟨rfl, rfl⟩

lemma range_all_iff (n : Nat) (f : Nat → Bool) :
    ((List.range n).all f = true) ↔ ∀ w, w < n → f w = true := by
  simp [List.all_eq_true, List.mem_range]

lemma getD_ext_eq (n : Nat) : ∀ (a b : List Nat), a.length = n → b.length = n →
    (∀ w, w < n → a.getD w 0 = b.getD w 0) → a = b := by
  induction n with
  | zero =>
      intro a b ha hb _
      cases a <;> cases b <;> simp_all
  | succ n ih =>
      intro a b ha hb h
      cases a with
      | nil => simp at ha
      | cons x a =>
        cases b with
        | nil => simp at hb
        | cons y b =>
          have hx : x = y := h 0 (by omega)
          have ht : a = b := by
            refine ih a b (by simpa using ha) (by simpa using hb) ?_
            intro w hw
            exact h (w + 1) (by omega)
          rw [hx, ht]

lemma list_getD_map (f : Nat → Nat) : ∀ (l : List Nat) (w : Nat), w < l.length →
    (l.map f).getD w 0 = f (l.getD w 0) := by
  intro l
  induction l with
  | nil => intro w hw; simp at hw
  | cons x l ih =>
      intro w hw
      cases w with
      | zero => rfl
      | succ w => exact ih w (by simpa using hw)

lemma list_getD_mem : ∀ (l : List Nat) (w : Nat), w < l.length → l.getD w 0 ∈ l := by
  intro l
  induction l with
  | nil => intro w hw; simp at hw
  | cons x l ih =>
      intro w hw
      cases w with
      | zero => exact List.mem_cons_self x l
      | succ w => exact List.mem_cons_of_mem x (ih w (by simpa using hw))

lemma range_all_getD_iff (a b : List Nat) (n : Nat) (ha : a.length = n) (hb : b.length = n) :
    (((List.range n).all fun w => a.getD w 0 == b.getD w 0) = true) ↔ a = b := by
  rw [range_all_iff]
  constructor
  · intro h
    refine getD_ext_eq n a b ha hb ?_
    intro w hw
    simpa using h w hw
  · intro h w hw
    simp [h]

lemma range_all_getD_compl_iff (a b : List Nat) (n : Nat) (ha : a.length = n)
    (hb : b.length = n) :
    (((List.range n).all fun w => a.getD w 0 == wnot (b.getD w 0)) = true) ↔ a = b.map wnot := by
  rw [range_all_iff]
  constructor
  · intro h
    refine getD_ext_eq n a (b.map wnot) ha (by simpa using hb) ?_
    intro w hw
    rw [list_getD_map wnot b w (by omega)]
    simpa using h w hw
  · intro h w hw
    rw [h, list_getD_map wnot b w (by omega)]
    simp

lemma wnot_mod_two (w : Nat) (h : w < 2 ^ 64) : wnot w % 2 ≠ w % 2 := by
  have h64 : (2 : Nat) ^ 64 = 18446744073709551616 := by norm_num
  unfold wnot wordMask
  omega

/-- C3: the candidate-equivalence test returns true exactly when the two
simulation vectors are equal or word-for-word complementary; equality is
checked when the two column-0 bits agree, complementarity when they differ,
and the two cases are mutually exclusive because complementation flips the
column-0 bit. -/
theorem c3_sim_equal_iff (p : GiaMan) (i0 i1 : Nat)
    (h0 : (p.sims i0).length = p.nSimWords) (h1 : (p.sims i1).length = p.nSimWords)
    (hW : 0 < p.nSimWords)
    (hb1 : ∀ w ∈ p.sims i1, w < 2 ^ 64) :
    Cec2_ObjSimEqual p i0 i1 = true ↔
      (p.sims i0 = p.sims i1 ∨ p.sims i0 = (p.sims i1).map wnot) := by
  unfold Cec2_ObjSimEqual
  by_cases hlsb : (p.sims i0).getD 0 0 % 2 = (p.sims i1).getD 0 0 % 2
  · rw [if_pos (by simpa using hlsb)]
    rw [range_all_getD_iff (p.sims i0) (p.sims i1) p.nSimWords h0 h1]
    constructor
    · exact Or.inl
    · rintro (h | h)
      · exact h
      · exfalso
        have hmem : (p.sims i1).getD 0 0 ∈ p.sims i1 := list_getD_mem _ 0 (by omega)
        have hg : (p.sims i0).getD 0 0 = wnot ((p.sims i1).getD 0 0) := by
          rw [h]
          exact list_getD_map wnot _ 0 (by omega)
        exact wnot_mod_two _ (hb1 _ hmem) (by rw [← hg, hlsb])
  · rw [if_neg (by simpa using hlsb)]
    rw [range_all_getD_compl_iff (p.sims i0) (p.sims i1) p.nSimWords h0 h1]
    constructor
    · exact Or.inr
    · rintro (h | h)
      · exact absurd (by rw [h]) hlsb
      · exact h

/-- C3 witness at a concrete manager holding the vectors [5] and [wnot 5]. -/
theorem c3_witness :
    Cec2_ObjSimEqual exampleSim 0 1 = true ↔
      (exampleSim.sims 0 = exampleSim.sims 1 ∨
       exampleSim.sims 0 = (exampleSim.sims 1).map wnot) := by
  refine c3_sim_equal_iff exampleSim 0 1 ?_ ?_ ?_ ?_
  · rfl
  · rfl
  · decide
  · intro w hw
    simp [exampleSim, wnot, wordMask] at hw
    omega

lemma refineScan_eq_span (p : GiaMan) (iRepr : Nat) : ∀ members : List Nat,
    refineScan p iRepr members =
      (members.takeWhile fun m => Cec2_ObjSimEqual p iRepr m,
       members.dropWhile fun m => Cec2_ObjSimEqual p iRepr m) := by
  intro members
  induction members with
  | nil => rfl
  | cons m rest ih =>
      by_cases h : Cec2_ObjSimEqual p iRepr m = true
      · simp [refineScan, h, List.takeWhile_cons, List.dropWhile_cons, ih]
      · simp [refineScan, h, List.takeWhile_cons, List.dropWhile_cons]

lemma refineRelink_eq_filter (p : GiaMan) (iRepr : Nat) : ∀ l : List Nat,
    refineRelink p iRepr l =
      (l.filter fun m => Cec2_ObjSimEqual p iRepr m,
       l.filter fun m => !Cec2_ObjSimEqual p iRepr m) := by
  intro l
  induction l with
  | nil => rfl
  | cons m rest ih =>
      by_cases h : Cec2_ObjSimEqual p iRepr m = true
      · simp [refineRelink, h, ih, List.filter_cons]
      · simp [refineRelink, h, ih, List.filter_cons]

lemma dropWhile_first_false (q : Nat → Bool) : ∀ (l : List Nat) (x : Nat) (rest : List Nat),
    l.dropWhile q = x :: rest → q x = false := by
  intro l
  induction l with
  | nil => intro x rest h; simp [List.dropWhile] at h
  | cons m ms ih =>
      intro x rest h
      by_cases hm : q m = true
      · rw [List.dropWhile_cons, if_pos hm] at h
        exact ih x rest h
      · rw [List.dropWhile_cons, if_neg hm] at h
        cases h
        simpa using hm

lemma filter_head?_eq_find? (q : Nat → Bool) : ∀ l : List Nat,
    (l.filter q).head? = l.find? q := by
  intro l
  induction l with
  | nil => rfl
  | cons m rest ih =>
      by_cases h : q m = true
      · rw [List.filter_cons_of_pos h, List.find?_cons_of_pos _ h]
        rfl
      · rw [List.filter_cons_of_neg (by simpa using h), List.find?_cons_of_neg _ (by simpa using h)]
        exact ih

lemma refineOne_eq_partition (p : GiaMan) (iRepr : Nat) (members : List Nat) :
    Cec2_ManSimClassRefineOne p iRepr members
      = (members.filter fun m => Cec2_ObjSimEqual p iRepr m,
         members.filter fun m => !Cec2_ObjSimEqual p iRepr m) := by
  unfold Cec2_ManSimClassRefineOne
  rw [refineScan_eq_span]
  cases hd : members.dropWhile (fun m => Cec2_ObjSimEqual p iRepr m) with
  | nil =>
      have hall : ∀ x ∈ members, Cec2_ObjSimEqual p iRepr x = true := by
        intro x hx
        exact List.dropWhile_eq_nil_iff.mp hd x hx
      simp only [Prod.mk.injEq]
      constructor
      · rw [List.filter_eq_self.mpr hall]
      · rw [List.filter_eq_nil_iff.mpr]
        intro x hx
        simp [hall x hx]
  | cons r2 rest =>
      have hr2 : Cec2_ObjSimEqual p iRepr r2 = false := dropWhile_first_false _ members r2 rest hd
      have hdec : members
          = (members.takeWhile fun m => Cec2_ObjSimEqual p iRepr m) ++ r2 :: rest := by
        rw [← hd, List.takeWhile_append_dropWhile]
      have htw : ∀ x ∈ members.takeWhile (fun m => Cec2_ObjSimEqual p iRepr m),
          Cec2_ObjSimEqual p iRepr x = true := fun x hx => List.mem_takeWhile_imp hx
      simp only [refineRelink_eq_filter, Prod.mk.injEq]
      constructor
      · have h1 : List.filter (fun m => Cec2_ObjSimEqual p iRepr m)
            (members.takeWhile fun m => Cec2_ObjSimEqual p iRepr m)
            = members.takeWhile fun m => Cec2_ObjSimEqual p iRepr m :=
          List.filter_eq_self.mpr htw
        have h2 : List.filter (fun m => Cec2_ObjSimEqual p iRepr m) (r2 :: rest)
            = List.filter (fun m => Cec2_ObjSimEqual p iRepr m) rest :=
          List.filter_cons_of_neg (by simp [hr2])
        conv_rhs => rw [hdec, List.filter_append, h1, h2]
      · have h1 : List.filter (fun m => !Cec2_ObjSimEqual p iRepr m)
            (members.takeWhile fun m => Cec2_ObjSimEqual p iRepr m) = [] := by
          rw [List.filter_eq_nil_iff]
          intro x hx
          simp [htw x hx]
        have h2 : List.filter (fun m => !Cec2_ObjSimEqual p iRepr m) (r2 :: rest)
            = r2 :: List.filter (fun m => !Cec2_ObjSimEqual p iRepr m) rest :=
          List.filter_cons_of_pos (by simp [hr2])
        conv_rhs => rw [hdec, List.filter_append, h1, h2]
        simp

/-- C4: one refinement step keeps in the class of the representative exactly
the members equal to it under the current simulation content, moves all other
members to a new class headed by the first disequal member, preserves the
relative chain order of both parts (they are sublists of the original chain),
and never adds a node. -/
theorem c4_refine_split (p : GiaMan) (iRepr : Nat) (members : List Nat) :
    (Cec2_ManSimClassRefineOne p iRepr members).1
        = members.filter (fun m => Cec2_ObjSimEqual p iRepr m) ∧
    (Cec2_ManSimClassRefineOne p iRepr members).2
        = members.filter (fun m => !Cec2_ObjSimEqual p iRepr m) ∧
    ((Cec2_ManSimClassRefineOne p iRepr members).1).Sublist members ∧
    ((Cec2_ManSimClassRefineOne p iRepr members).2).Sublist members ∧
    ((Cec2_ManSimClassRefineOne p iRepr members).2).head?
        = members.find? (fun m => !Cec2_ObjSimEqual p iRepr m) := by
  rw [refineOne_eq_partition]
  refine ⟨rfl, rfl, List.filter_sublist members, List.filter_sublist members, ?_⟩
  exact filter_head?_eq_find? _ members

lemma miterCoScan_spec (phs : List Bool) : ∀ (l : List Nat) (k : Nat),
    (l.any fun id => phs.getD id false) = true →
    miterCoScan phs k l = some (k + l.findIdx fun id => phs.getD id false) := by
  intro l
  induction l with
  | nil => intro k h; simp at h
  | cons id rest ih =>
      intro k h
      by_cases hid : phs.getD id false = true
      · rw [miterCoScan, if_pos hid, List.findIdx_cons, hid]
        simp
      · have hrest : (rest.any fun id => phs.getD id false) = true := by
          simp only [List.any_cons, hid] at h
          simpa using h
        rw [miterCoScan, if_neg (by simpa using hid), List.findIdx_cons]
        rw [ih (k + 1) hrest]
        simp only [hid, cond_false]
        congr 1
        omega

/-- C6: in miter mode, when some CO has phase 1 (that is, it evaluates to 1
under the all-zero CI assignment), the shortcut at the top of
Cec2_ManPerformSweeping fails before any simulation, returning a
counter-example whose iPo is the index of the first such output and whose CI
assignment is all zero. -/
theorem c6_miter_zero_pattern (objs : List GiaObj)
    (h : ((coIds objs).any fun id => (Gia_ManSetPhase objs).getD id false) = true) :
    Cec2_ManPerformSweepingCheck true objs =
      some ⟨(coIds objs).findIdx fun id => (Gia_ManSetPhase objs).getD id false,
            List.replicate (nCi objs) false⟩ := by
  unfold Cec2_ManPerformSweepingCheck
  rw [if_pos rfl, miterCoScan_spec (Gia_ManSetPhase objs) (coIds objs) 0 h]
  simp [Cec2_ManDeriveCex]

/-- C6 witness: a miter with one CI and one CO that inverts it. -/
theorem c6_witness :
    Cec2_ManPerformSweepingCheck true exampleMiter = some ⟨0, [false]⟩ := by
  have h := c6_miter_zero_pattern exampleMiter (by decide)
  simpa using h

lemma simChunks_bound : ∀ (l : List Nat), (∀ w ∈ l, w < 2 ^ 64) →
    ∀ u ∈ simChunks l, u < 2 ^ 32 := by
  intro l
  induction l with
  | nil => intro _ u hu; simp [simChunks] at hu
  | cons w ws ih =>
      intro hb u hu
      have hw : w < 2 ^ 64 := hb w (List.mem_cons_self w ws)
      simp only [simChunks, List.mem_cons] at hu
      rcases hu with h | h | h
      · subst h; omega
      · subst h; omega
      · exact ih (fun x hx => hb x (List.mem_cons_of_mem w hx)) u h

lemma simChunks_map_wnot : ∀ (l : List Nat), (∀ w ∈ l, w < 2 ^ 64) →
    simChunks (l.map wnot) = (simChunks l).map cnot32 := by
  intro l
  induction l with
  | nil => intro _; rfl
  | cons w ws ih =>
      intro hb
      have hw : w < 2 ^ 64 := hb w (List.mem_cons_self w ws)
      simp only [List.map_cons, simChunks,
        ih (fun x hx => hb x (List.mem_cons_of_mem w hx)), List.cons.injEq, and_true]
      constructor <;> (unfold wnot wordMask cnot32; omega)

lemma cnot32_cnot32 (u : Nat) (h : u < 2 ^ 32) : cnot32 (cnot32 u) = u := by
  unfold cnot32
  omega

lemma cnot32_mod_two (u : Nat) (h : u < 2 ^ 32) : cnot32 u % 2 ≠ u % 2 := by
  unfold cnot32
  omega

lemma enumFrom_map_cnot : ∀ (l : List Nat) (k : Nat),
    (l.map cnot32).enumFrom k = (l.enumFrom k).map fun p => (p.1, cnot32 p.2) := by
  intro l
  induction l with
  | nil => intro k; rfl
  | cons x xs ih => intro k; simp [List.enumFrom, ih]

lemma mem_enumFrom_snd : ∀ (l : List Nat) (k : Nat) (p : Nat × Nat),
    p ∈ l.enumFrom k → p.2 ∈ l := by
  intro l
  induction l with
  | nil => intro k p hp; simp [List.enumFrom] at hp
  | cons x xs ih =>
      intro k p hp
      simp only [List.enumFrom, List.mem_cons] at hp
      rcases hp with h | h
      · subst h; exact List.mem_cons_self x xs
      · exact List.mem_cons_of_mem x (ih (k + 1) p h)

lemma foldl_hash_congr (f g : Nat → Nat × Nat → Nat) : ∀ (l : List (Nat × Nat)) (a : Nat),
    (∀ x ∈ l, ∀ acc, f acc x = g acc x) → l.foldl f a = l.foldl g a := by
  intro l
  induction l with
  | nil => intro a _; rfl
  | cons x xs ih =>
      intro a h
      rw [List.foldl_cons, List.foldl_cons, h x (List.mem_cons_self x xs)]
      exact ih _ fun y hy acc => h y (List.mem_cons_of_mem x hy) acc

/-- C10: the signature hash is invariant under complementing the whole
simulation vector: the complement flips the column-0 bit selecting the
complemented accumulation loop, and the chunk values fed to the multipliers
coincide. -/
theorem c10_hash_compl_invariant (pSim : List Nat) (nSims nTableSize : Nat)
    (hlen : pSim.length = nSims) (hn : 0 < nSims)
    (hb : ∀ w ∈ pSim, w < 2 ^ 64) :
    Cec2_ManSimHashKey (pSim.map wnot) nSims nTableSize
      = Cec2_ManSimHashKey pSim nSims nTableSize := by
  subst hlen
  unfold Cec2_ManSimHashKey
  simp only []
  rw [List.take_of_length_le (le_of_eq rfl),
    List.take_of_length_le (le_of_eq (by rw [List.length_map]))]
  rw [simChunks_map_wnot pSim hb]
  have hbc : ∀ u ∈ simChunks pSim, u < 2 ^ 32 := simChunks_bound pSim hb
  cases hc : simChunks pSim with
  | nil =>
      cases pSim with
      | nil => simp at hn
      | cons w ws => simp [simChunks] at hc
  | cons c0 ctail =>
      have hc0 : c0 < 2 ^ 32 := hbc c0 (by rw [hc]; exact List.mem_cons_self c0 ctail)
      have hhead : ((c0 :: ctail).map cnot32).getD 0 0 = cnot32 c0 := rfl
      have hhead0 : (c0 :: ctail).getD 0 0 = c0 := rfl
      by_cases hpar : c0 % 2 = 1
      · have hpar2 : cnot32 c0 % 2 ≠ 1 := by
          have := cnot32_mod_two c0 hc0
          omega
        rw [hhead, hhead0, if_neg (by simpa using hpar2), if_pos (by simpa using hpar)]
        unfold List.enum
        rw [enumFrom_map_cnot, List.foldl_map]
      · have hpar2 : cnot32 c0 % 2 = 1 := by
          have h1 := cnot32_mod_two c0 hc0
          have h2 : c0 % 2 = 0 := by omega
          omega
        rw [hhead, hhead0, if_pos (by simpa using hpar2), if_neg (by simpa using hpar)]
        unfold List.enum
        rw [enumFrom_map_cnot, List.foldl_map]
        refine congrArg (fun x => x % nTableSize) ?_
        refine foldl_hash_congr _ _ _ 0 ?_
        intro x hx acc
        have hx2 : x.2 < 2 ^ 32 := by
          have := mem_enumFrom_snd (c0 :: ctail) 0 x hx
          exact hbc x.2 (by rw [hc]; exact this)
        rw [cnot32_cnot32 x.2 hx2]

/-- C10 witness at the one-word vector [5] and table size 7. -/
theorem c10_witness :
    Cec2_ManSimHashKey ([5].map wnot) 1 7 = Cec2_ManSimHashKey [5] 1 7 := by
  refine c10_hash_compl_invariant [5] 1 7 rfl (by decide) ?_
  intro w hw
  simp at hw
  omega

lemma getD_set_ne (l : List Nat) (i j v : Nat) (h : i ≠ j) :
    (l.set i v).getD j 0 = l.getD j 0 := by
  induction l generalizing i j with
  | nil => rfl
  | cons x xs ih =>
      cases i with
      | zero =>
          cases j with
          | zero => omega
          | succ j => rfl
      | succ i =>
          cases j with
          | zero => rfl
          | succ j => exact ih i j (by omega)

lemma simGetBit_zero (sim : List Nat) : simGetBit sim 0 = (sim.getD 0 0 % 2 == 1) := by
  unfold simGetBit
  norm_num

lemma xor_word_parity (x k : Nat) (hk : 1 ≤ k) :
    (if x / 2 ^ k % 2 == 1 then x - 2 ^ k else x + 2 ^ k) % 2 = x % 2 := by
  obtain ⟨m, hm⟩ : ∃ m, 2 ^ k = 2 * m :=
    ⟨2 ^ (k - 1), by rw [← pow_succ']; congr 1; omega⟩
  by_cases hc : x / 2 ^ k % 2 = 1
  · rw [if_pos (by simpa using hc)]
    have hle : 2 ^ k ≤ x := by
      rcases Nat.lt_or_ge x (2 ^ k) with h | h
      · rw [Nat.div_eq_of_lt h] at hc
        simp at hc
      · exact h
    omega
  · rw [if_neg (by simpa using hc)]
    omega

lemma simXorBit_getBit0 (sim : List Nat) (pos : Nat) (hpos : pos ≠ 0) :
    simGetBit (simXorBit sim pos) 0 = simGetBit sim 0 := by
  simp only [simGetBit_zero]
  unfold simXorBit simGetBit
  by_cases h64 : pos / 64 = 0
  · have hk : 1 ≤ pos % 64 := by omega
    cases sim with
    | nil => rfl
    | cons x xs =>
        rw [h64]
        have hv := xor_word_parity x (pos % 64) hk
        show ((if (x / 2 ^ (pos % 64) % 2 == 1) = true then x - 2 ^ (pos % 64)
               else x + 2 ^ (pos % 64)) % 2 == 1) = (x % 2 == 1)
        rw [hv]
  · rw [getD_set_ne sim (pos / 64) 0 _ (by omega)]

lemma setInputBit_fields (p : GiaMan) (iObj : Nat) (bit : Bool) :
    (Cec2_ObjSimSetInputBit p iObj bit).iPatsPi = p.iPatsPi ∧
    (Cec2_ObjSimSetInputBit p iObj bit).nSimWords = p.nSimWords := by
  unfold Cec2_ObjSimSetInputBit
  split <;> exact ⟨rfl, rfl⟩

lemma setInputBit_getBit0 (p : GiaMan) (iObj : Nat) (bit : Bool) (hpos : p.iPatsPi ≠ 0) :
    ∀ i, simGetBit ((Cec2_ObjSimSetInputBit p iObj bit).sims i) 0 = simGetBit (p.sims i) 0 := by
  intro i
  unfold Cec2_ObjSimSetInputBit
  split
  · by_cases hi : i = iObj
    · subst hi
      simp [simXorBit_getBit0 _ _ hpos]
    · simp [hi]
  · rfl

lemma fold_setInputBit_inv (pol : Nat → Bool) : ∀ (pairs : List (Nat × Int)) (p : GiaMan),
    p.iPatsPi ≠ 0 →
    (pairs.foldl (fun q pr => Cec2_ObjSimSetInputBit q pr.1 (pol pr.2.toNat)) p).iPatsPi
        = p.iPatsPi ∧
    (pairs.foldl (fun q pr => Cec2_ObjSimSetInputBit q pr.1 (pol pr.2.toNat)) p).nSimWords
        = p.nSimWords ∧
    ∀ i, simGetBit
        ((pairs.foldl (fun q pr => Cec2_ObjSimSetInputBit q pr.1 (pol pr.2.toNat)) p).sims i) 0
        = simGetBit (p.sims i) 0 := by
  intro pairs
  induction pairs with
  | nil => intro p _; exact ⟨rfl, rfl, fun _ => rfl⟩
  | cons pr rest ih =>
      intro p h
      simp only [List.foldl_cons]
      have hfields := setInputBit_fields p pr.1 (pol pr.2.toNat)
      have hbit := setInputBit_getBit0 p pr.1 (pol pr.2.toNat) h
      have hrec := ih (Cec2_ObjSimSetInputBit p pr.1 (pol pr.2.toNat))
        (by rw [hfields.1]; exact h)
      exact ⟨by rw [hrec.1, hfields.1], by rw [hrec.2.1, hfields.2],
        fun i => by rw [hrec.2.2 i, hbit i]⟩

lemma iPatsPiNext_range (W x : Nat) (hW : 0 < W) (hlo : 1 ≤ x) (hhi : x < 64 * W) :
    1 ≤ iPatsPiNext W x ∧ iPatsPiNext W x < 64 * W := by
  unfold iPatsPiNext
  split <;> omega

/-- C8: the pattern column counter stays in the interval from 1 up to but not
including 64 times nSimWords: Cec2_ManSimulateCis resets it to 1, the SAT
branch of Cec2_ManSweepNode advances it with wrap-around inside that interval,
and since every SAT-derived bit is written at the advanced column, which is
never 0, the reserved column 0 of every simulation vector is never
overwritten. -/
theorem c8_ipatspi_invariant (p : GiaMan) (hW : 0 < p.nSimWords)
    (hlo : 1 ≤ p.iPatsPi) (hhi : p.iPatsPi < 64 * p.nSimWords) :
    (∀ (objs : List GiaObj) (rng : Nat → List Nat),
        (Cec2_ManSimulateCis objs rng p).iPatsPi = 1) ∧
    1 < 64 * p.nSimWords ∧
    (1 ≤ iPatsPiNext p.nSimWords p.iPatsPi ∧
     iPatsPiNext p.nSimWords p.iPatsPi < 64 * p.nSimWords ∧
     iPatsPiNext p.nSimWords p.iPatsPi ≠ 0) ∧
    (∀ (a : RGia) (solve : List (Nat × Nat) → Nat × Nat → SStatus)
        (pol : Nat → Bool) (ci2aig : Nat → Nat) (iObj iRepr : Nat),
        (Cec2_ManSweepNode a solve pol ci2aig p iObj iRepr).1.nSimWords = p.nSimWords ∧
        1 ≤ (Cec2_ManSweepNode a solve pol ci2aig p iObj iRepr).1.iPatsPi ∧
        (Cec2_ManSweepNode a solve pol ci2aig p iObj iRepr).1.iPatsPi < 64 * p.nSimWords ∧
        ∀ i, simGetBit ((Cec2_ManSweepNode a solve pol ci2aig p iObj iRepr).1.sims i) 0
            = simGetBit (p.sims i) 0) := by
  have hnextr := iPatsPiNext_range p.nSimWords p.iPatsPi hW hlo hhi
  refine ⟨fun objs rng => rfl, by omega, ⟨hnextr.1, hnextr.2, by omega⟩, ?_⟩
  intro a solve pol ci2aig iObj iRepr
  unfold Cec2_ManSweepNode
  simp only []
  generalize Cec2_ManSolveTwo a solve ci2aig (Abc_Lit2Var (p.value iRepr))
      (Abc_Lit2Var (p.value iObj))
      ((Abc_LitIsCompl (p.value iObj)).xor ((Abc_LitIsCompl (p.value iRepr)).xor
        ((p.phase iObj).xor (p.phase iRepr)))) = res
  rcases res with ⟨st, q, sv, nn, prs, vs⟩
  cases st with
  | sat =>
      have hfold := fold_setInputBit_inv pol prs
        { p with iPatsPi := iPatsPiNext p.nSimWords p.iPatsPi }
        (by have h1 := hnextr.1; simp only []; omega)
      refine ⟨hfold.2.1, ?_, ?_, fun i => hfold.2.2 i⟩
      · rw [hfold.1]
        exact hnextr.1
      · rw [hfold.1]
        exact hnextr.2
  | unsat => exact ⟨rfl, hlo, hhi, fun i => rfl⟩
  | undec => exact ⟨rfl, hlo, hhi, fun i => rfl⟩

/-- C8 witness at a concrete manager with one simulation word and counter 1. -/
theorem c8_witness :
    (0 < exampleGiaMan.nSimWords ∧ 1 ≤ exampleGiaMan.iPatsPi ∧
      exampleGiaMan.iPatsPi < 64 * exampleGiaMan.nSimWords) ∧
    (Cec2_ManSimulateCis exampleMiter (fun _ => [0]) exampleGiaMan).iPatsPi = 1 ∧
    1 ≤ iPatsPiNext exampleGiaMan.nSimWords exampleGiaMan.iPatsPi ∧
    (Cec2_ManSweepNode exampleR (fun _ _ => SStatus.sat) (fun _ => false) (fun i => i)
        exampleGiaMan 4 3).1.iPatsPi < 64 * exampleGiaMan.nSimWords :=
  ⟨⟨by decide, by decide, by decide⟩,
   (c8_ipatspi_invariant exampleGiaMan (by decide) (by decide) (by decide)).1
     exampleMiter (fun _ => [0]),
   (c8_ipatspi_invariant exampleGiaMan (by decide) (by decide) (by decide)).2.2.1.1,
   ((c8_ipatspi_invariant exampleGiaMan (by decide) (by decide) (by decide)).2.2.2 exampleR
     (fun _ _ => SStatus.sat) (fun _ => false) (fun i => i) 4 3).2.2.1⟩

lemma solveTwo_out_spec (s1 s2 : SStatus) (q1 q2 : Nat × Nat) (i0 : Nat) :
    (if s1 = SStatus.unsat ∧ 0 < i0 then (s2, [q1, q2]) else (s1, [q1])).2
        = (if s1 = SStatus.unsat ∧ 0 < i0 then [q1, q2] else [q1]) ∧
    ((if s1 = SStatus.unsat ∧ 0 < i0 then (s2, [q1, q2]) else (s1, [q1])).1 = SStatus.unsat ↔
      (s1 = SStatus.unsat ∧ (i0 = 0 ∨ s2 = SStatus.unsat))) := by
  by_cases h : s1 = SStatus.unsat ∧ 0 < i0
  · rw [if_pos h, if_pos h]
    refine ⟨rfl, ?_⟩
    constructor
    · intro h2
      exact ⟨h.1, Or.inr h2⟩
    · rintro ⟨_, h2 | h2⟩
      · omega
      · exact h2
  · rw [if_neg h, if_neg h]
    refine ⟨rfl, ?_⟩
    constructor
    · intro h1
      refine ⟨h1, Or.inl ?_⟩
      by_contra h0
      exact h ⟨h1, by omega⟩
    · rintro ⟨h1, _⟩
      exact h1

lemma fold_setInputBit_flags (pol : Nat → Bool) : ∀ (pairs : List (Nat × Int)) (p : GiaMan),
    (pairs.foldl (fun q pr => Cec2_ObjSimSetInputBit q pr.1 (pol pr.2.toNat)) p).proved
        = p.proved ∧
    (pairs.foldl (fun q pr => Cec2_ObjSimSetInputBit q pr.1 (pol pr.2.toNat)) p).value
        = p.value := by
  intro pairs
  induction pairs with
  | nil => intro p; exact ⟨rfl, rfl⟩
  | cons pr rest ih =>
      intro p
      simp only [List.foldl_cons]
      have hone : (Cec2_ObjSimSetInputBit p pr.1 (pol pr.2.toNat)).proved = p.proved ∧
          (Cec2_ObjSimSetInputBit p pr.1 (pol pr.2.toNat)).value = p.value := by
        unfold Cec2_ObjSimSetInputBit
        split <;> exact ⟨rfl, rfl⟩
      have hrec := ih (Cec2_ObjSimSetInputBit p pr.1 (pol pr.2.toNat))
      exact ⟨by rw [hrec.1, hone.1], by rw [hrec.2, hone.2]⟩

lemma sweepNode_proved_spec (a : RGia) (solve : List (Nat × Nat) → Nat × Nat → SStatus)
    (pol : Nat → Bool) (ci2aig : Nat → Nat) (p : GiaMan) (iObj iRepr : Nat) :
    ((Cec2_ManSweepNode a solve pol ci2aig p iObj iRepr).1.proved iObj = true ↔
      ((Cec2_ManSolveTwo a solve ci2aig (Abc_Lit2Var (p.value iRepr)) (Abc_Lit2Var (p.value iObj))
          ((Abc_LitIsCompl (p.value iObj)).xor ((Abc_LitIsCompl (p.value iRepr)).xor
            ((p.phase iObj).xor (p.phase iRepr))))).status = SStatus.unsat
        ∨ p.proved iObj = true)) ∧
    ((Cec2_ManSolveTwo a solve ci2aig (Abc_Lit2Var (p.value iRepr)) (Abc_Lit2Var (p.value iObj))
        ((Abc_LitIsCompl (p.value iObj)).xor ((Abc_LitIsCompl (p.value iRepr)).xor
          ((p.phase iObj).xor (p.phase iRepr))))).status = SStatus.unsat →
      (Cec2_ManSweepNode a solve pol ci2aig p iObj iRepr).1.value iObj
        = Abc_LitNotCond (p.value iRepr)
            ((Abc_LitIsCompl (p.value iObj)).xor ((Abc_LitIsCompl (p.value iRepr)).xor
              ((p.phase iObj).xor (p.phase iRepr))))) := by
  unfold Cec2_ManSweepNode
  simp only []
  generalize Cec2_ManSolveTwo a solve ci2aig (Abc_Lit2Var (p.value iRepr))
      (Abc_Lit2Var (p.value iObj))
      ((Abc_LitIsCompl (p.value iObj)).xor ((Abc_LitIsCompl (p.value iRepr)).xor
        ((p.phase iObj).xor (p.phase iRepr)))) = res
  rcases res with ⟨st, q, sv, nn, prs, vs⟩
  cases st with
  | sat =>
      have hflags := fold_setInputBit_flags pol prs
        { p with iPatsPi := iPatsPiNext p.nSimWords p.iPatsPi }
      refine ⟨?_, by intro h; cases h⟩
      rw [show (List.foldl (fun q pr => Cec2_ObjSimSetInputBit q pr.1 (pol pr.2.toNat))
        { p with iPatsPi := iPatsPiNext p.nSimWords p.iPatsPi } prs).proved = p.proved
        from hflags.1]
      simp
  | unsat =>
      refine ⟨by simp, by intro _; simp⟩
  | undec =>
      refine ⟨by simp, by intro h; cases h⟩

/-- C1: in Cec2_ManSolveTwo both polarities are asked of the solver: the first
query pushes the assumption literals (v0 with complement bit 1, v1 with the
phase difference), and the reverse query with both literals negated is made
only when the first is UNSAT and the smaller node is not the constant (index
0); the final status is UNSAT exactly when the direct query is UNSAT and
either one side is the constant (reverse check skipped) or the reverse query
is UNSAT too, and Cec2_ManSweepNode merges the node and marks it proved
exactly when that final status is UNSAT. -/
theorem c1_solvetwo_polarity (a : RGia) (solve : List (Nat × Nat) → Nat × Nat → SStatus)
    (ci2aig : Nat → Nat) (iObj0 iObj1 : Nat) (fPhase : Bool)
    (res : SolveTwoRes) (hres : res = Cec2_ManSolveTwo a solve ci2aig iObj0 iObj1 fPhase)
    (q1 q2 : Nat × Nat)
    (hq1 : q1 = (Abc_Var2Lit res.vars.1 true, Abc_Var2Lit res.vars.2 fPhase))
    (hq2 : q2 = (Abc_Var2Lit res.vars.1 false, Abc_Var2Lit res.vars.2 (!fPhase))) :
    (res.queries = if solve [] q1 = SStatus.unsat ∧ 0 < min iObj0 iObj1
        then [q1, q2] else [q1]) ∧
    (res.status = SStatus.unsat ↔
      (solve [] q1 = SStatus.unsat ∧
        (min iObj0 iObj1 = 0 ∨ solve [q1] q2 = SStatus.unsat))) ∧
    (∀ (pol : Nat → Bool) (p : GiaMan) (iObj iRepr : Nat),
      ((Cec2_ManSweepNode a solve pol ci2aig p iObj iRepr).1.proved iObj = true ↔
        ((Cec2_ManSolveTwo a solve ci2aig (Abc_Lit2Var (p.value iRepr))
            (Abc_Lit2Var (p.value iObj))
            ((Abc_LitIsCompl (p.value iObj)).xor ((Abc_LitIsCompl (p.value iRepr)).xor
              ((p.phase iObj).xor (p.phase iRepr))))).status = SStatus.unsat
          ∨ p.proved iObj = true)) ∧
      ((Cec2_ManSolveTwo a solve ci2aig (Abc_Lit2Var (p.value iRepr))
          (Abc_Lit2Var (p.value iObj))
          ((Abc_LitIsCompl (p.value iObj)).xor ((Abc_LitIsCompl (p.value iRepr)).xor
            ((p.phase iObj).xor (p.phase iRepr))))).status = SStatus.unsat →
        (Cec2_ManSweepNode a solve pol ci2aig p iObj iRepr).1.value iObj
          = Abc_LitNotCond (p.value iRepr)
              ((Abc_LitIsCompl (p.value iObj)).xor ((Abc_LitIsCompl (p.value iRepr)).xor
                ((p.phase iObj).xor (p.phase iRepr)))))) := by
  refine ⟨?_, ?_, fun pol p iObj iRepr => sweepNode_proved_spec a solve pol ci2aig p iObj iRepr⟩
  all_goals
    subst hres hq1 hq2
  all_goals
    by_cases hsw : iObj1 < iObj0
  · have hmin : min iObj0 iObj1 = iObj1 := Nat.min_eq_right (Nat.le_of_lt hsw)
    simp only [Cec2_ManSolveTwo, if_pos hsw, hmin]
    exact (solveTwo_out_spec _ _ _ _ _).1
  · have hmin : min iObj0 iObj1 = iObj0 := Nat.min_eq_left (Nat.le_of_not_lt hsw)
    simp only [Cec2_ManSolveTwo, if_neg hsw, hmin]
    exact (solveTwo_out_spec _ _ _ _ _).1
  · have hmin : min iObj0 iObj1 = iObj1 := Nat.min_eq_right (Nat.le_of_lt hsw)
    simp only [Cec2_ManSolveTwo, if_pos hsw, hmin]
    exact (solveTwo_out_spec _ _ _ _ _).2
  · have hmin : min iObj0 iObj1 = iObj0 := Nat.min_eq_left (Nat.le_of_not_lt hsw)
    simp only [Cec2_ManSolveTwo, if_neg hsw, hmin]
    exact (solveTwo_out_spec _ _ _ _ _).2

/-- C1 witness: with a solver answering SAT on the direct query, exactly one
query is issued. -/
theorem c1_witness :
    (Cec2_ManSolveTwo exampleR (fun _ _ => SStatus.sat) (fun i => i) 3 4 false).queries =
      [(Abc_Var2Lit 0 true, Abc_Var2Lit 3 false)] := by
  have h := (c1_solvetwo_polarity exampleR (fun _ _ => SStatus.sat) (fun i => i) 3 4 false
    _ rfl _ _ rfl rfl).1
  rw [h]
  decide

lemma isAndAt_lt_length (objs : List GiaObj) (i : Nat) (h : isAndAt objs i = true) :
    i < objs.length := by
  by_contra hge
  unfold isAndAt objAt at h
  rw [List.getD_eq_default] at h
  · simp [isAndObj] at h
  · omega

lemma wfR_obj0 (a : RGia) (h : wfR a = true) : objAt a.objs 0 = GiaObj.const0 := by
  unfold wfR at h
  simp only [Bool.and_eq_true, decide_eq_true_eq] at h
  exact h.1

lemma wfR_isAnd0 (a : RGia) (h : wfR a = true) : isAndAt a.objs 0 = false := by
  unfold isAndAt
  rw [wfR_obj0 a h]
  rfl

lemma wfR_and_fanins (a : RGia) (h : wfR a = true) (i : Nat) (hand : isAndAt a.objs i = true) :
    0 < fanin0At a.objs i ∧ fanin0At a.objs i < i ∧
      0 < fanin1At a.objs i ∧ fanin1At a.objs i < i := by
  have hi := isAndAt_lt_length a.objs i hand
  unfold wfR at h
  simp only [Bool.and_eq_true, List.all_eq_true, List.mem_range, decide_eq_true_eq] at h
  have h2 := h.2 i hi
  unfold isAndAt at hand
  unfold fanin0At fanin1At litFanin0 litFanin1
  cases hobj : objAt a.objs i with
  | andg l0 l1 =>
      rw [hobj] at h2
      simp only [decide_eq_true_eq] at h2
      simp only [hobj]
      exact h2
  | const0 => rw [hobj] at hand; simp [isAndObj] at hand
  | ci => rw [hobj] at hand; simp [isAndObj] at hand
  | co l0 => rw [hobj] at hand; simp [isAndObj] at hand

lemma wfR_no_co (a : RGia) (h : wfR a = true) (i : Nat) : isCoObj (objAt a.objs i) = false := by
  by_cases hi : i < a.objs.length
  · unfold wfR at h
    simp only [Bool.and_eq_true, List.all_eq_true, List.mem_range] at h
    have h2 := h.2 i hi
    cases hobj : objAt a.objs i with
    | co l0 => rw [hobj] at h2; simp at h2
    | const0 => simp [isCoObj]
    | ci => simp [isCoObj]
    | andg l0 l1 => simp [isCoObj]
  · unfold objAt
    rw [List.getD_eq_default]
    · rfl
    · omega

lemma wfR_const_imp (a : RGia) (h : wfR a = true) (i : Nat) (hi : i < a.objs.length)
    (hc : objAt a.objs i = GiaObj.const0) : i = 0 := by
  unfold wfR at h
  simp only [Bool.and_eq_true, List.all_eq_true, List.mem_range] at h
  have h2 := h.2 i hi
  rw [hc] at h2
  simpa using h2

lemma reach_le (a : RGia) (h : wfR a = true) {root j : Nat} (hr : Reach a root j) : j ≤ root := by
  induction hr with
  | refl => exact Nat.le_refl _
  | f0 hr hand ih =>
      have := wfR_and_fanins a h _ hand
      omega
  | f1 hr hand ih =>
      have := wfR_and_fanins a h _ hand
      omega

lemma svInv_refl (b : Nat → Int) (R : Nat → Prop) : svInv b b R := fun _ hj => absurd rfl hj

lemma svInv_comp {b s1 s2 : Nat → Int} {R1 R2 : Nat → Prop}
    (h1 : svInv b s1 R1) (h2 : svInv s1 s2 R2) :
    svInv b s2 (fun j => R1 j ∨ R2 j) := by
  intro j hj
  by_cases hc : s2 j = s1 j
  · rw [hc] at hj ⊢
    have := h1 j hj
    exact ⟨Or.inl this.1, this.2⟩
  · have := h2 j hc
    exact ⟨Or.inr this.1, this.2⟩

lemma cnfAssign_svInv (st : CnfState) (i : Nat) :
    svInv st.satVar (cnfAssign st i).satVar (fun j => j = i) := by
  intro j hj
  unfold cnfAssign at hj ⊢
  simp only [] at hj ⊢
  by_cases hji : j = i
  · refine ⟨hji, ?_⟩
    rw [if_pos hji]
    exact Int.natCast_nonneg _
  · rw [if_neg hji] at hj
    exact absurd rfl hj

lemma addToFrontier_inv (a : RGia) (R : Nat → Prop) (b : Nat → Int)
    (i : Nat) (stq : CnfState × List Nat)
    (hq : ∀ x ∈ stq.2, R x ∧ isAndAt a.objs x = true)
    (hi : R i)
    (hsv : svInv b stq.1.satVar R) :
    (∀ x ∈ (Cec2_ObjAddToFrontier a i stq).2, R x ∧ isAndAt a.objs x = true) ∧
    svInv b (Cec2_ObjAddToFrontier a i stq).1.satVar R := by
  unfold Cec2_ObjAddToFrontier
  split
  · exact ⟨hq, hsv⟩
  · constructor
    · intro x hx
      simp only [] at hx
      by_cases hAnd : isAndAt a.objs i = true
      · rw [if_pos hAnd] at hx
        rcases List.mem_append.mp hx with h | h
        · exact hq x h
        · have hxi := List.mem_singleton.mp h
          subst hxi
          exact ⟨hi, hAnd⟩
      · rw [if_neg hAnd] at hx
        exact hq x hx
    · intro j hj
      simp only [] at hj ⊢
      unfold cnfAssign at hj ⊢
      simp only [] at hj ⊢
      by_cases hji : j = i
      · refine ⟨hji ▸ hi, ?_⟩
        rw [if_pos hji]
        exact Int.natCast_nonneg _
      · rw [if_neg hji] at hj ⊢
        exact hsv j hj

lemma foldl_addToFrontier_inv (a : RGia) (R : Nat → Prop) (b : Nat → Int) :
    ∀ (fanins : List Nat) (stq : CnfState × List Nat),
    (∀ x ∈ fanins, R x) →
    (∀ x ∈ stq.2, R x ∧ isAndAt a.objs x = true) →
    svInv b stq.1.satVar R →
    (∀ x ∈ (fanins.foldl (fun sq f => Cec2_ObjAddToFrontier a f sq) stq).2,
        R x ∧ isAndAt a.objs x = true) ∧
    svInv b (fanins.foldl (fun sq f => Cec2_ObjAddToFrontier a f sq) stq).1.satVar R := by
  intro fanins
  induction fanins with
  | nil => intro stq _ hq hsv; exact ⟨hq, hsv⟩
  | cons f fs ih =>
      intro stq hf hq hsv
      simp only [List.foldl_cons]
      have hstep := addToFrontier_inv a R b f stq hq (hf f (List.mem_cons_self f fs)) hsv
      exact ih _ (fun x hx => hf x (List.mem_cons_of_mem f hx)) hstep.1 hstep.2

lemma vecPushUnique_mem (v : List Nat) (x y : Nat) (h : y ∈ vecPushUnique v x) :
    y ∈ v ∨ y = x := by
  unfold vecPushUnique at h
  split at h
  · exact Or.inl h
  · rcases List.mem_append.mp h with h | h
    · exact Or.inl h
    · exact Or.inr (List.mem_singleton.mp h)

lemma collectSuper_rec_reach (a : RGia) (hwf : wfR a = true) (root : Nat)
    (hroot : root < a.objs.length) :
    ∀ (fuel : Nat) (lit : Nat) (fFirst : Bool) (acc : List Nat),
      Reach a root (lit / 2) → lit / 2 ≠ 0 →
      (∀ x ∈ acc, Reach a root (x / 2)) →
      ∀ x ∈ Cec2_CollectSuper_rec a fuel lit fFirst acc, Reach a root (x / 2) := by
  intro fuel
  induction fuel with
  | zero => intro lit fFirst acc _ _ hacc x hx; exact hacc x hx
  | succ fuel ih =>
      intro lit fFirst acc hr hne hacc x hx
      unfold Cec2_CollectSuper_rec at hx
      split at hx
      · rcases vecPushUnique_mem acc lit x hx with h | h
        · exact hacc x h
        · subst h
          exact hr
      · rename_i hcond
        simp only [Bool.or_eq_true, not_or] at hcond
        have hAnd : isAndAt a.objs (lit / 2) = true := by
          have hnoco := wfR_no_co a hwf (lit / 2)
          have hle := reach_le a hwf hr
          have hlt : lit / 2 < a.objs.length := by omega
          unfold isAndAt
          unfold isCiAt at hcond
          cases hobj : objAt a.objs (lit / 2) with
          | andg l0 l1 => simp [isAndObj]
          | ci =>
              exfalso
              have := hcond.1.1.2
              rw [hobj] at this
              simp [isCiObj] at this
          | co l0 =>
              exfalso
              rw [hobj] at hnoco
              simp [isCoObj] at hnoco
          | const0 => exact absurd (wfR_const_imp a hwf _ hlt hobj) hne
        have hwfa := wfR_and_fanins a hwf (lit / 2) hAnd
        have h1 := ih (litFanin0 a.objs (lit / 2)) false acc
          (Reach.f0 hr hAnd) (by have := hwfa.1; unfold fanin0At at this; omega) hacc
        exact ih (litFanin1 a.objs (lit / 2)) false _
          (Reach.f1 hr hAnd) (by have := hwfa.2.2.1; unfold fanin1At at this; omega) h1 x hx

lemma cnfFrontierLoop_inv (a : RGia) (hwf : wfR a = true) (hmux : wfMux a = true)
    (root : Nat) (hroot : root < a.objs.length) (b : Nat → Int) :
    ∀ (fuel : Nat) (q : List Nat) (st : CnfState),
      (∀ x ∈ q, Reach a root x ∧ isAndAt a.objs x = true) →
      svInv b st.satVar (Reach a root) →
      svInv b (cnfFrontierLoop a fuel q st).satVar (Reach a root) := by
  intro fuel
  induction fuel with
  | zero =>
      intro q st _ hsv
      exact hsv
  | succ fuel ih =>
      intro q st hq hsv
      cases q with
      | nil => exact hsv
      | cons n rest =>
          have hn := hq n (List.mem_cons_self n rest)
          have hn0 : n ≠ 0 := by
            intro h
            rw [h, wfR_isAnd0 a hwf] at hn
            exact absurd hn.2 (by simp)
          have hfan : ∀ x ∈ (if a.mark0 n then muxFanins a n
              else (Cec2_CollectSuper a n).map fun l => l / 2), Reach a root x := by
            by_cases hm : a.mark0 n = true
            · rw [if_pos hm]
              have hn_lt := isAndAt_lt_length a.objs n hn.2
              unfold wfMux at hmux
              simp only [List.all_eq_true, List.mem_range] at hmux
              have hmx := hmux n hn_lt
              rw [hm] at hmx
              simp only [Bool.not_true, Bool.false_or, Bool.and_eq_true] at hmx
              intro x hx
              unfold muxFanins at hx
              rcases vecPushUnique_mem _ _ _ hx with hx | hx
              · rcases vecPushUnique_mem _ _ _ hx with hx | hx
                · rcases vecPushUnique_mem _ _ _ hx with hx | hx
                  · rcases vecPushUnique_mem _ _ _ hx with hx | hx
                    · simp at hx
                    · subst hx
                      exact Reach.f0 (Reach.f0 hn.1 hn.2) hmx.1.2
                  · subst hx
                    exact Reach.f0 (Reach.f1 hn.1 hn.2) hmx.2
                · subst hx
                  exact Reach.f1 (Reach.f0 hn.1 hn.2) hmx.1.2
              · subst hx
                exact Reach.f1 (Reach.f1 hn.1 hn.2) hmx.2
            · rw [if_neg hm]
              intro x hx
              rcases List.mem_map.mp hx with ⟨l, hl, rfl⟩
              unfold Cec2_CollectSuper at hl
              have hstart : Reach a root (2 * n / 2) := by
                have h2 : 2 * n / 2 = n := by omega
                rw [h2]
                exact hn.1
              have hne : 2 * n / 2 ≠ 0 := by omega
              exact collectSuper_rec_reach a hwf root hroot (a.objs.length + 1) (2 * n) true []
                hstart hne (by intro x hx; simp at hx) l hl
          have hfold := foldl_addToFrontier_inv a (Reach a root) b _ (st, rest) hfan
            (fun x hx => hq x (List.mem_cons_of_mem n hx)) hsv
          show svInv b (cnfFrontierLoop a (fuel + 1) (n :: rest) st).satVar (Reach a root)
          rw [cnfFrontierLoop]
          exact ih _ _ hfold.1 hfold.2

lemma getCnfVar_inv (a : RGia) (hwf : wfR a = true) (hmux : wfMux a = true)
    (iObj : Nat) (hio : iObj < a.objs.length) (st : CnfState) :
    svInv st.satVar (Cec2_ObjGetCnfVar a st iObj).1.satVar (Reach a iObj) := by
  unfold Cec2_ObjGetCnfVar
  split
  · exact svInv_refl _ _
  · split
    · intro j hj
      unfold cnfAssign at hj ⊢
      simp only [] at hj ⊢
      by_cases hji : j = iObj
      · subst hji
        refine ⟨Reach.refl j, ?_⟩
        rw [if_pos rfl]
        exact Int.natCast_nonneg _
      · rw [if_neg hji] at hj
        exact absurd rfl hj
    · simp only []
      have hstep := addToFrontier_inv a (Reach a iObj) st.satVar iObj (st, [])
        (by intro x hx; simp at hx) (Reach.refl iObj) (svInv_refl _ _)
      exact cnfFrontierLoop_inv a hwf hmux iObj hio st.satVar _ _ _ hstep.1 hstep.2

lemma collect_inv (a : RGia) (hwf : wfR a = true) (sv : Nat → Int) (ci2aig : Nat → Nat) :
    ∀ (fuel : Nat) (iObj : Nat) (s : CollectState), iObj + 1 ≤ fuel →
      (∀ x ∈ s.visited, 0 ≤ sv x → x ∈ s.nodesNew) →
      s.visited ⊆ (Cec2_ManCollect_rec a sv ci2aig fuel iObj s).visited ∧
      iObj ∈ (Cec2_ManCollect_rec a sv ci2aig fuel iObj s).visited ∧
      (∀ x ∈ (Cec2_ManCollect_rec a sv ci2aig fuel iObj s).visited, x ∉ s.visited →
        isAndAt a.objs x = true →
        fanin0At a.objs x ∈ (Cec2_ManCollect_rec a sv ci2aig fuel iObj s).visited ∧
        fanin1At a.objs x ∈ (Cec2_ManCollect_rec a sv ci2aig fuel iObj s).visited) ∧
      (∀ x ∈ (Cec2_ManCollect_rec a sv ci2aig fuel iObj s).visited, 0 ≤ sv x →
        x ∈ (Cec2_ManCollect_rec a sv ci2aig fuel iObj s).nodesNew) := by
  intro fuel
  induction fuel with
  | zero => intro iObj s h _; omega
  | succ fuel ih =>
      intro iObj s hfuel hmemo
      by_cases hvis : iObj ∈ s.visited
      · have hres : Cec2_ManCollect_rec a sv ci2aig (fuel + 1) iObj s = s := by
          rw [Cec2_ManCollect_rec]
          rw [if_pos hvis]
        rw [hres]
        exact ⟨fun x hx => hx, hvis, fun x hx hnx _ => absurd hx hnx, hmemo⟩
      · have hs1memo : ∀ x ∈ s.visited ++ [iObj], 0 ≤ sv x →
            x ∈ (if 0 ≤ sv iObj then s.nodesNew ++ [iObj] else s.nodesNew) := by
          intro x hx hsvx
          rcases List.mem_append.mp hx with h | h
          · have hin := hmemo x h hsvx
            split
            · exact List.mem_append.mpr (Or.inl hin)
            · exact hin
          · have hxi := List.mem_singleton.mp h
            subst hxi
            rw [if_pos hsvx]
            exact List.mem_append.mpr (Or.inr (List.mem_singleton.mpr rfl))
        by_cases h0 : iObj = 0
        · subst h0
          have hres : Cec2_ManCollect_rec a sv ci2aig (fuel + 1) 0 s
              = ⟨s.visited ++ [0], if 0 ≤ sv 0 then s.nodesNew ++ [0] else s.nodesNew,
                 s.pairs⟩ := by
            rw [Cec2_ManCollect_rec]
            rw [if_neg hvis]
            simp only []
            rw [if_pos trivial]
          rw [hres]
          refine ⟨List.subset_append_left _ _,
            List.mem_append.mpr (Or.inr (List.mem_singleton.mpr rfl)), ?_, hs1memo⟩
          intro x hx hnx hand
          rcases List.mem_append.mp hx with h | h
          · exact absurd h hnx
          · have hx0 := List.mem_singleton.mp h
            subst hx0
            rw [wfR_isAnd0 a hwf] at hand
            simp at hand
        · by_cases hAnd : isAndAt a.objs iObj = true
          · have hfanb := wfR_and_fanins a hwf iObj hAnd
            have hres : Cec2_ManCollect_rec a sv ci2aig (fuel + 1) iObj s
                = Cec2_ManCollect_rec a sv ci2aig fuel (fanin1At a.objs iObj)
                    (Cec2_ManCollect_rec a sv ci2aig fuel (fanin0At a.objs iObj)
                      ⟨s.visited ++ [iObj],
                       if 0 ≤ sv iObj then s.nodesNew ++ [iObj] else s.nodesNew,
                       s.pairs⟩) := by
              rw [Cec2_ManCollect_rec]
              rw [if_neg hvis]
              simp only []
              rw [if_neg h0, if_pos hAnd]
            have ih1 := ih (fanin0At a.objs iObj)
              ⟨s.visited ++ [iObj],
               if 0 ≤ sv iObj then s.nodesNew ++ [iObj] else s.nodesNew, s.pairs⟩
              (by omega) hs1memo
            have ih2 := ih (fanin1At a.objs iObj)
              (Cec2_ManCollect_rec a sv ci2aig fuel (fanin0At a.objs iObj)
                ⟨s.visited ++ [iObj],
                 if 0 ≤ sv iObj then s.nodesNew ++ [iObj] else s.nodesNew, s.pairs⟩)
              (by omega) ih1.2.2.2
            rw [hres]
            have hsub : s.visited ⊆
                (Cec2_ManCollect_rec a sv ci2aig fuel (fanin1At a.objs iObj)
                  (Cec2_ManCollect_rec a sv ci2aig fuel (fanin0At a.objs iObj)
                    ⟨s.visited ++ [iObj],
                     if 0 ≤ sv iObj then s.nodesNew ++ [iObj] else s.nodesNew,
                     s.pairs⟩)).visited := by
              intro x hx
              exact ih2.1 (ih1.1 (List.mem_append.mpr (Or.inl hx)))
            refine ⟨hsub,
              ih2.1 (ih1.1 (List.mem_append.mpr (Or.inr (List.mem_singleton.mpr rfl)))),
              ?_, ih2.2.2.2⟩
            intro x hx hnx hand
            by_cases hx1 : x ∈ (Cec2_ManCollect_rec a sv ci2aig fuel (fanin0At a.objs iObj)
                ⟨s.visited ++ [iObj],
                 if 0 ≤ sv iObj then s.nodesNew ++ [iObj] else s.nodesNew,
                 s.pairs⟩).visited
            · by_cases hxs1 : x ∈ s.visited ++ [iObj]
              · rcases List.mem_append.mp hxs1 with h | h
                · exact absurd h hnx
                · have hxi := List.mem_singleton.mp h
                  subst hxi
                  exact ⟨ih2.1 ih1.2.1, ih2.2.1⟩
              · have h := ih1.2.2.1 x hx1 hxs1 hand
                exact ⟨ih2.1 h.1, ih2.1 h.2⟩
            · exact ih2.2.2.1 x hx hx1 hand
          · have hres : Cec2_ManCollect_rec a sv ci2aig (fuel + 1) iObj s
                = ⟨s.visited ++ [iObj],
                   if 0 ≤ sv iObj then s.nodesNew ++ [iObj] else s.nodesNew,
                   s.pairs ++ [(ci2aig iObj, sv iObj)]⟩ := by
              rw [Cec2_ManCollect_rec]
              rw [if_neg hvis]
              simp only []
              rw [if_neg h0, if_neg hAnd]
            rw [hres]
            refine ⟨List.subset_append_left _ _,
              List.mem_append.mpr (Or.inr (List.mem_singleton.mpr rfl)), ?_, hs1memo⟩
            intro x hx hnx hand
            rcases List.mem_append.mp hx with h | h
            · exact absurd h hnx
            · have hxi := List.mem_singleton.mp h
              subst hxi
              exact absurd hand hAnd

lemma reach_mem_of_closed (a : RGia) (V : List Nat)
    (hcl : ∀ x ∈ V, isAndAt a.objs x = true →
      fanin0At a.objs x ∈ V ∧ fanin1At a.objs x ∈ V)
    (root : Nat) (hr : root ∈ V) : ∀ j, Reach a root j → j ∈ V := by
  intro j hj
  induction hj with
  | refl => exact hr
  | f0 hr2 hand ih => exact (hcl _ ih hand).1
  | f1 hr2 hand ih => exact (hcl _ ih hand).2

lemma cleanSatVars_spec : ∀ (nodes : List Nat) (sv : Nat → Int) (j : Nat),
    cleanSatVars nodes sv j = if j ∈ nodes then -1 else sv j := by
  intro nodes
  induction nodes with
  | nil => intro sv j; simp [cleanSatVars]
  | cons n ns ih =>
      intro sv j
      show cleanSatVars ns (fun k => if k = n then -1 else sv k) j = _
      rw [ih]
      by_cases hj : j ∈ ns
      · rw [if_pos hj, if_pos (List.mem_cons_of_mem n hj)]
      · rw [if_neg hj]
        by_cases hjn : j = n
        · rw [if_pos hjn, if_pos (by rw [hjn]; exact List.mem_cons_self n ns)]
        · rw [if_neg hjn, if_neg (by simp [hj, hjn])]

lemma c7_core (a : RGia) (hwf : wfR a = true) (sv : Nat → Int) (ci2aig : Nat → Nat)
    (i0 i1 : Nat) (h0 : i0 < a.objs.length) (h1 : i1 < a.objs.length)
    (hsv : ∀ j, sv j ≠ -1 → (Reach a i0 j ∨ Reach a i1 j) ∧ 0 ≤ sv j)
    (j : Nat) :
    cleanSatVars
      (Cec2_ManCollect_rec a sv ci2aig a.objs.length i1
        (Cec2_ManCollect_rec a sv ci2aig a.objs.length i0 ⟨[], [], []⟩)).nodesNew sv j
      = -1 := by
  have hcol1 := collect_inv a hwf sv ci2aig a.objs.length i0 ⟨[], [], []⟩ (by omega)
    (by intro x hx; simp at hx)
  have hcol2 := collect_inv a hwf sv ci2aig a.objs.length i1
    (Cec2_ManCollect_rec a sv ci2aig a.objs.length i0 ⟨[], [], []⟩) (by omega) hcol1.2.2.2
  have hclosed : ∀ x ∈ (Cec2_ManCollect_rec a sv ci2aig a.objs.length i1
      (Cec2_ManCollect_rec a sv ci2aig a.objs.length i0 ⟨[], [], []⟩)).visited,
      isAndAt a.objs x = true →
      fanin0At a.objs x ∈ (Cec2_ManCollect_rec a sv ci2aig a.objs.length i1
        (Cec2_ManCollect_rec a sv ci2aig a.objs.length i0 ⟨[], [], []⟩)).visited ∧
      fanin1At a.objs x ∈ (Cec2_ManCollect_rec a sv ci2aig a.objs.length i1
        (Cec2_ManCollect_rec a sv ci2aig a.objs.length i0 ⟨[], [], []⟩)).visited := by
    intro x hx hand
    by_cases hx1 : x ∈ (Cec2_ManCollect_rec a sv ci2aig a.objs.length i0 ⟨[], [], []⟩).visited
    · have h := hcol1.2.2.1 x hx1 (by simp) hand
      exact ⟨hcol2.1 h.1, hcol2.1 h.2⟩
    · exact hcol2.2.2.1 x hx hx1 hand
  rw [cleanSatVars_spec]
  by_cases hj : j ∈ (Cec2_ManCollect_rec a sv ci2aig a.objs.length i1
      (Cec2_ManCollect_rec a sv ci2aig a.objs.length i0 ⟨[], [], []⟩)).nodesNew
  · rw [if_pos hj]
  · rw [if_neg hj]
    by_cases hsvj : sv j = -1
    · exact hsvj
    · exfalso
      have hre := hsv j hsvj
      have hjvis : j ∈ (Cec2_ManCollect_rec a sv ci2aig a.objs.length i1
          (Cec2_ManCollect_rec a sv ci2aig a.objs.length i0 ⟨[], [], []⟩)).visited := by
        rcases hre.1 with h | h
        · exact reach_mem_of_closed a _ hclosed i0 (hcol2.1 hcol1.2.1) j h
        · exact reach_mem_of_closed a _ hclosed i1 hcol2.2.1 j h
      exact hj (hcol2.2.2.2 j hjvis hre.2)

/-- C7: after every Cec2_ManSolveTwo call the satVar map of the rebuilt AIG is
fully cleaned: every node that received a SAT variable during the call lies in
the structural cone of one of the two solved nodes, the cone walk of
Cec2_ManCollect_rec visits all of it, and the final cleanup loop resets every
collected entry, so every entry is -1 when the call returns. -/
theorem c7_satvar_cleaned (a : RGia) (hwf : wfR a = true) (hmux : wfMux a = true)
    (solve : List (Nat × Nat) → Nat × Nat → SStatus) (ci2aig : Nat → Nat)
    (iObj0 iObj1 : Nat) (h0 : iObj0 < a.objs.length) (h1 : iObj1 < a.objs.length)
    (fPhase : Bool) (j : Nat) :
    (Cec2_ManSolveTwo a solve ci2aig iObj0 iObj1 fPhase).satVar j = -1 := by
  unfold Cec2_ManSolveTwo
  rcases Nat.lt_or_ge iObj1 iObj0 with hsw | hsw
  · rw [if_pos hsw]
    refine c7_core a hwf _ ci2aig iObj1 iObj0 h1 h0 ?_ j
    intro k hk
    have hc1 : svInv (fun _ => (-1 : Int))
        (if iObj1 = 0 then cnfAssign ⟨fun _ => -1, 0⟩ 0 else (⟨fun _ => -1, 0⟩ : CnfState)).satVar
        (Reach a iObj1) := by
      split
      · rename_i hz
        intro x hx
        have h := cnfAssign_svInv ⟨fun _ => -1, 0⟩ 0 x hx
        refine ⟨?_, h.2⟩
        rw [hz, h.1]
        exact Reach.refl 0
      · exact svInv_refl _ _
    have hc2 := getCnfVar_inv a hwf hmux iObj1 h1
      (if iObj1 = 0 then cnfAssign ⟨fun _ => -1, 0⟩ 0 else (⟨fun _ => -1, 0⟩ : CnfState))
    have hc3 := getCnfVar_inv a hwf hmux iObj0 h0
      (Cec2_ObjGetCnfVar a
        (if iObj1 = 0 then cnfAssign ⟨fun _ => -1, 0⟩ 0 else (⟨fun _ => -1, 0⟩ : CnfState))
        iObj1).1
    have hcomp := svInv_comp (svInv_comp hc1 hc2) hc3
    have h := hcomp k hk
    refine ⟨?_, h.2⟩
    rcases h.1 with (h | h) | h
    · exact Or.inl h
    · exact Or.inl h
    · exact Or.inr h
  · rw [if_neg (by omega)]
    refine c7_core a hwf _ ci2aig iObj0 iObj1 h0 h1 ?_ j
    intro k hk
    have hc1 : svInv (fun _ => (-1 : Int))
        (if iObj0 = 0 then cnfAssign ⟨fun _ => -1, 0⟩ 0 else (⟨fun _ => -1, 0⟩ : CnfState)).satVar
        (Reach a iObj0) := by
      split
      · rename_i hz
        intro x hx
        have h := cnfAssign_svInv ⟨fun _ => -1, 0⟩ 0 x hx
        refine ⟨?_, h.2⟩
        rw [hz, h.1]
        exact Reach.refl 0
      · exact svInv_refl _ _
    have hc2 := getCnfVar_inv a hwf hmux iObj0 h0
      (if iObj0 = 0 then cnfAssign ⟨fun _ => -1, 0⟩ 0 else (⟨fun _ => -1, 0⟩ : CnfState))
    have hc3 := getCnfVar_inv a hwf hmux iObj1 h1
      (Cec2_ObjGetCnfVar a
        (if iObj0 = 0 then cnfAssign ⟨fun _ => -1, 0⟩ 0 else (⟨fun _ => -1, 0⟩ : CnfState))
        iObj0).1
    have hcomp := svInv_comp (svInv_comp hc1 hc2) hc3
    have h := hcomp k hk
    refine ⟨?_, h.2⟩
    rcases h.1 with (h | h) | h
    · exact Or.inl h
    · exact Or.inl h
    · exact Or.inr h

/-- C7 witness: at the concrete rebuilt AIG, after solving the pair (3, 4),
the satVar entry of node 2 (a CI that was variablized during the call) is back
to -1. -/
theorem c7_witness :
    (Cec2_ManSolveTwo exampleR (fun _ _ => SStatus.sat) (fun i => i) 3 4 false).satVar 2
      = -1 :=
  c7_satvar_cleaned exampleR (by decide) (by decide) (fun _ _ => SStatus.sat) (fun i => i)
    3 4 (by decide) (by decide) false 2
